import Mathlib

/-
A shallow embedding of `src/cryptobuddy.py` (the CryptoBuddy command-line
chatbot) together with proofs about its behaviour.

Modelling conventions, used throughout:

* Python strings are Lean `String`s; character-level work happens on the
  underlying `List Char` (`String.data`).  Case mapping (`str.lower`,
  `str.title`, `re.IGNORECASE`) and the regex word class `\w` are modelled
  over the ASCII range, which covers every string the program manipulates.
* Python floats (prices, 24h percent changes, intent scores) are modelled
  as rationals; no claim depends on binary floating-point rounding.
* The NLTK-based normalizer (`extract_key_terms`, primary path) calls an
  external statistical tagger, so the terms it produces are passed to the
  embedded classifier as an explicit `key_terms` parameter;
  `extract_key_terms_fallback` is the deterministic fallback tokenizer of
  the same function, embedded from the source.
* The network response of the price feed is a parameter of
  `fetch_real_time_data`: the value `none` models every failure raised
  before the per-asset update loop (network error, timeout, non-2xx
  status, malformed JSON), and a feed entry whose field is `none` models a
  JSON object lacking that key.
-/

/-! ## Character and string utilities -/

/-- The regex word class `\w` over the ASCII range: letters, digits, `_`. -/
def isWordChar (c : Char) : Bool := c.isAlphanum || c == '_'

/-- Case-insensitive prefix match of a literal against the input, returning
the remaining input on success.  Models matching a regex literal under
`re.IGNORECASE` (ASCII case folding). -/
def litMatch : List Char → List Char → Option (List Char)
  | [], cs => some cs
  | _ :: _, [] => none
  | p :: ps, c :: cs => if p.toLower == c.toLower then litMatch ps cs else none

/-- Case-sensitive prefix test on character lists. -/
def listPrefixOf : List Char → List Char → Bool
  | [], _ => true
  | _ :: _, [] => false
  | a :: as, b :: bs => a == b && listPrefixOf as bs

/-- Case-sensitive substring test on character lists: Python's `needle in hay`
(both sides are lowercased by the callers, exactly as in the source). -/
def strContains (needle : List Char) : List Char → Bool
  | [] => listPrefixOf needle []
  | c :: rest => listPrefixOf needle (c :: rest) || strContains needle rest

/-- `s.lower()` as a character list (ASCII case folding). -/
def lowerChars (s : String) : List Char := s.data.map Char.toLower

/-- Python `str.strip()`: drop whitespace from both ends. -/
def pyStrip (cs : List Char) : List Char :=
  ((cs.dropWhile Char.isWhitespace).reverse.dropWhile Char.isWhitespace).reverse

/-- Helper of `pyTitle`: the boolean tracks whether the previous character
was alphabetic. -/
def pyTitleAux : Bool → List Char → List Char
  | _, [] => []
  | prevAlpha, c :: cs => (if prevAlpha then c.toLower else c.toUpper) :: pyTitleAux c.isAlpha cs

/-- Python `str.title()` over the ASCII range: uppercase each letter that
follows a non-letter, lowercase the rest. -/
def pyTitle (s : String) : String := String.mk (pyTitleAux false s.data)

/-- `sep.join(xs)` for the separators used by the handlers. -/
def joinSep (sep : String) : List String → String
  | [] => ""
  | [x] => x
  | x :: y :: rest => x ++ sep ++ joinSep sep (y :: rest)

/-- Whether `suf` is a suffix of `s`. -/
def endsWithStr (s suf : String) : Bool := listPrefixOf suf.data.reverse s.data.reverse

/-- Index of the first occurrence of `needle`, scanning from offset `i`. -/
def indexOfSubAux (needle : List Char) : List Char → Nat → Option Nat
  | [], i => if listPrefixOf needle [] then some i else none
  | c :: rest, i =>
      if listPrefixOf needle (c :: rest) then some i else indexOfSubAux needle rest (i + 1)

/-- Index (in characters) of the first occurrence of `needle` in `hay`. -/
def indexOfSub (hay needle : String) : Option Nat := indexOfSubAux needle.data hay.data 0

/-- Both `a` and `b` occur in `hay` and the first occurrence of `a` starts
strictly before the first occurrence of `b`. -/
def subBefore (hay a b : String) : Bool :=
  match indexOfSub hay a, indexOfSub hay b with
  | some i, some j => i < j
  | _, _ => false

/-! ## The regex dialect of `CryptoBuddy.patterns`

Every pattern in the source has the shape `\b(alt1|alt2|...)\b` where each
alternative is a literal except for `long.?term`, which contains a single
optional wildcard `.?`.  An alternative is a sequence of segments; every
alternative in the table begins and ends with a word character, so the
surrounding `\b` anchors reduce to: the previous character (if any) is not a
word character, and the character following the match (if any) is not a word
character. -/

/-- One segment of a regex alternative: a literal, or the wildcard `.?`. -/
inductive Seg where
  | lit : List Char → Seg
  | anyOpt : Seg
deriving DecidableEq

/-- A regex alternative: segments in sequence. -/
abbrev RAlt := List Seg

/-- A pattern `\b(alt1|alt2|...)\b`: the list of its alternatives. -/
abbrev RPat := List RAlt

/-- All ways an alternative can consume a prefix of `cs`; each element is a
possible remaining input.  `.?` consumes either nothing or one character
other than a newline. -/
def segsRem : RAlt → List Char → List (List Char)
  | [], cs => [cs]
  | Seg.lit w :: rest, cs =>
      match litMatch w cs with
      | none => []
      | some cs2 => segsRem rest cs2
  | Seg.anyOpt :: rest, cs =>
      segsRem rest cs ++ (match cs with
        | [] => []
        | c :: cs2 => if c == '\n' then [] else segsRem rest cs2)

/-- The trailing `\b` anchor: end of input, or a non-word character next. -/
def tailBoundary : List Char → Bool
  | [] => true
  | c :: _ => !(isWordChar c)

/-- The alternative matches at the start of `cs` with a trailing boundary. -/
def altAt (alt : RAlt) (cs : List Char) : Bool := (segsRem alt cs).any tailBoundary

/-- Some alternative of the pattern matches at the start of `cs`. -/
def patAt (pat : RPat) (cs : List Char) : Bool := pat.any (fun alt => altAt alt cs)

/-- Scan of `re.search`: try the pattern at every position; `prevWord` says
whether the character before the current position is a word character (the
leading `\b` anchor holds exactly when it is not). -/
def searchFrom (pat : RPat) : Bool → List Char → Bool
  | prevWord, [] => !prevWord && patAt pat []
  | prevWord, c :: rest => (!prevWord && patAt pat (c :: rest)) || searchFrom pat (isWordChar c) rest

/-- `re.search(pattern, s, re.IGNORECASE) is not None` for the dialect above. -/
def reSearch (pat : RPat) (s : String) : Bool := searchFrom pat false s.data

/-- Builds the alternatives of a pattern whose alternatives are all literals. -/
def lits (ws : List String) : RPat := ws.map (fun w => [Seg.lit w.data])

/-! ## Data model (`CryptoData`, the tables built in `CryptoBuddy.__init__`) -/

/-- The `CryptoData` dataclass: static attributes plus the dynamic price
fields (defaulting to 0, meaning "not fetched"). -/
structure CryptoData where
  price_trend : String
  market_cap : String
  energy_use : String
  sustainability_score : String
  current_price : ℚ := 0
  price_change_24h : ℚ := 0
deriving DecidableEq

/-- Python `int(s)` on the strings this program feeds it: optional
surrounding whitespace, an optional sign, then a non-empty run of ASCII
digits; anything else raises `ValueError`, modelled as `none`. -/
def pyInt (cs : List Char) : Option Int :=
  let t := pyStrip cs
  let core : Option (Bool × List Char) :=
    match t with
    | '-' :: rest => some (true, rest)
    | '+' :: rest => some (false, rest)
    | rest => some (false, rest)
  match core with
  | some (neg, ds) =>
      if ds ≠ [] ∧ ds.all Char.isDigit then
        let n : Nat := ds.foldl (fun a c => a * 10 + (c.toNat - '0'.toNat)) 0
        some (if neg then -(n : Int) else (n : Int))
      else none
  | none => none

/-- `CryptoData.get_sustainability_numeric_score`:
`int(self.sustainability_score.split('/')[0])`, with parse failures
returned as `none`. -/
def CryptoData.get_sustainability_numeric_score (d : CryptoData) : Option Int :=
  pyInt (d.sustainability_score.data.takeWhile (fun c => c ≠ '/'))

/-- The static fallback table `self.crypto_data` (insertion order of the
Python dict is the list order). -/
def initialCryptoData : List (String × CryptoData) :=
  [("Bitcoin", { price_trend := "rising", market_cap := "high", energy_use := "high", sustainability_score := "3/10" }),
   ("Ethereum", { price_trend := "stable", market_cap := "high", energy_use := "medium", sustainability_score := "6/10" }),
   ("Cardano", { price_trend := "rising", market_cap := "medium", energy_use := "low", sustainability_score := "8/10" }),
   ("Solana", { price_trend := "rising", market_cap := "high", energy_use := "low", sustainability_score := "7/10" }),
   ("Polygon", { price_trend := "stable", market_cap := "medium", energy_use := "low", sustainability_score := "9/10" })]

/-- The CoinGecko identifier table `self.crypto_api_ids`. -/
def crypto_api_ids : List (String × String) :=
  [("Bitcoin", "bitcoin"), ("Ethereum", "ethereum"), ("Cardano", "cardano"),
   ("Solana", "solana"), ("Polygon", "matic-network")]

/-- `self.ethics_disclaimer`. -/
def ethics_disclaimer : String :=
  "\n\n⚠️ **IMPORTANT**: Crypto investments are highly risky and volatile. This is for educational purposes only. Always do your own research and consult with financial advisors before making investment decisions!"

/-- `self.patterns`: the intent table, in insertion order. -/
def patterns : List (String × List RPat) :=
  [("greeting", [lits ["hello", "hi", "hey", "good morning", "good afternoon", "greetings"]]),
   ("thanks", [lits ["thank you", "thanks", "thx", "appreciate", "grateful"]]),
   ("sustainable", [lits ["sustainable", "eco-friendly", "green", "environment", "clean", "carbon", "renewable"]]),
   ("profitable", [lits ["profitable", "profit", "money", "earning", "trending up", "rising", "bull", "gains", "returns"]]),
   ("long_term", [[Seg.lit "long".data, Seg.anyOpt, Seg.lit "term".data] :: lits ["future", "invest for", "hold", "hodl", "years", "decade"]]),
   ("price", [lits ["price", "cost", "value", "worth", "current", "now", "today"]]),
   ("market_cap", [lits ["market cap", "market capitalization", "size", "volume"]]),
   ("energy", [lits ["energy", "power", "consumption", "efficient", "mining", "proof"],
               lits ["electricity", "watts", "carbon footprint"]]),
   ("exit", [lits ["exit", "quit", "bye", "goodbye", "stop", "end"]]),
   ("help", [lits ["help", "what can you", "commands", "options"]]),
   ("compare", [lits ["compare", "versus", "vs", "difference", "better"]]),
   ("recommendation", [lits ["recommend", "suggest", "advice", "best", "top", "should i"]])]

/-- The keyword-boost table `intent_keywords` of `analyze_intent`. -/
def intent_keywords : List (String × List String) :=
  [("sustainable", ["green", "eco", "environment", "carbon", "clean"]),
   ("profitable", ["profit", "money", "gain", "bull", "earn"]),
   ("long_term", ["future", "hold", "long", "invest", "years"]),
   ("price", ["price", "cost", "value", "current"]),
   ("compare", ["compare", "versus", "better", "difference"])]

/-! ## Price Fetcher (`CryptoBuddy.fetch_real_time_data`) -/

/-- One per-asset object of the feed response: `usd` and `usd_24h_change`
are `none` when the corresponding JSON key is absent. -/
structure FeedEntry where
  usd : Option ℚ
  usd_24h_change : Option ℚ
deriving DecidableEq

/-- A successfully decoded feed: JSON object keyed by CoinGecko id. -/
abbrev Feed := List (String × FeedEntry)

/-- Lines 110-115 of the source: derive the stored trend from the 24h
change with strict thresholds. -/
def trendOfChange (change : ℚ) : String :=
  if change > 5 then "rising" else if change < -5 then "falling" else "stable"

/-- The in-place update of one asset once `data[api_id]['usd']` succeeded:
set the price, the 24h change (`.get('usd_24h_change', 0)` already applied)
and the derived trend. -/
def applyFeedEntry (d : CryptoData) (price change : ℚ) : CryptoData :=
  { d with current_price := price, price_change_24h := change, price_trend := trendOfChange change }

/-- Rewrite the store at key `name` (Python mutates `self.crypto_data[name]`
in place).  The program's store always carries every key of
`crypto_api_ids`, so the lookup never fails there; a store state lacking
the key is handled as a no-op update. -/
def updateStore (store : List (String × CryptoData)) (name : String)
    (f : CryptoData → CryptoData) : List (String × CryptoData) :=
  store.map (fun p => if p.1 = name then (p.1, f p.2) else p)

/-- The update loop of `fetch_real_time_data` over `crypto_api_ids.items()`.
A feed entry lacking the `usd` key raises `KeyError`, which the enclosing
`except` turns into the failure result - assets already processed keep
their updates. -/
def fetchLoop (feed : Feed) : List (String × String) → List (String × CryptoData) →
    List (String × CryptoData) × Bool
  | [], store => (store, true)
  | (name, apiId) :: rest, store =>
      match List.lookup apiId feed with
      | none => fetchLoop feed rest store
      | some e =>
          match e.usd with
          | none => (store, false)
          | some price =>
              fetchLoop feed rest
                (updateStore store name (fun d => applyFeedEntry d price (e.usd_24h_change.getD 0)))

/-- `CryptoBuddy.fetch_real_time_data`, as a function of the feed response.
`none` models any exception raised before the update loop (network error,
timeout, non-2xx status, malformed JSON); the boolean is the return value. -/
def fetch_real_time_data (store : List (String × CryptoData)) (resp : Option Feed) :
    List (String × CryptoData) × Bool :=
  match resp with
  | none => (store, false)
  | some feed => fetchLoop feed crypto_api_ids store

/-! ## Text normalizer (fallback path of `extract_key_terms`) -/

/-- Maximal runs of word characters: `re.findall(r'\b\w+\b', text)`. -/
def wordRuns : List Char → List (List Char)
  | [] => []
  | c :: cs =>
      if isWordChar c then
        match wordRuns cs with
        | [] => [[c]]
        | r :: rs =>
            match cs with
            | [] => [[c]]
            | c2 :: _ => if isWordChar c2 then (c :: r) :: rs else [c] :: r :: rs
      else wordRuns cs

/-- The deterministic fallback branch of `extract_key_terms`: lowercase,
extract word runs, keep runs longer than 2 outside the fixed stop set. -/
def extract_key_terms_fallback (text : String) : List String :=
  ((wordRuns (lowerChars text)).map String.mk).filter
    (fun w => 2 < w.length ∧ w ∉ (["the", "and", "or", "but", "for", "with"] : List String))

/-! ## Intent classifier (`analyze_intent`, `match_pattern`) -/

/-- The score of one intent: 1 per pattern of the intent that matches the
input, plus 0.5 (written `mkRat 1 2`, which the kernel can evaluate) per
normalizer term lying in the intent's keyword-boost set. -/
def intentScore (key_terms : List String) (user_input : String)
    (intent : String) (pats : List RPat) : ℚ :=
  let base : ℚ := pats.foldl (fun s p => if reSearch p user_input then s + 1 else s) 0
  match List.lookup intent intent_keywords with
  | none => base
  | some ks => key_terms.foldl (fun s t => if t ∈ ks then s + mkRat 1 2 else s) base

/-- `CryptoBuddy.analyze_intent`, with the normalizer output passed in as
`key_terms` (see the header note): returns the intents with positive score,
in the insertion order of `self.patterns`. -/
def analyze_intent (key_terms : List String) (user_input : String) : List (String × ℚ) :=
  patterns.foldl
    (fun acc p =>
      let score := intentScore key_terms user_input p.1 p.2
      if score > 0 then acc ++ [(p.1, score)] else acc)
    []

/-- `CryptoBuddy.match_pattern`: does any pattern of `pattern_key` match. -/
def match_pattern (user_input : String) (pattern_key : String) : Bool :=
  ((List.lookup pattern_key patterns).getD []).any (fun p => reSearch p user_input)

/-- The comparison step of Python's `max(..., key=lambda x: x[1])`: keep
the current best unless the new item's score is strictly greater (so the
first item attaining the maximum wins). -/
def pickBest (best p : String × ℚ) : String × ℚ := if p.2 > best.2 then p else best

/-- `max(intent_scores.items(), key=lambda x: x[1])[0]`: Python's `max`
returns the first item attaining the maximum, so ties go to the earliest
entry. `none` models the empty-dict case (in which the source never calls
`max`). -/
def top_intent (scores : List (String × ℚ)) : Option String :=
  match scores with
  | [] => none
  | x :: xs => some (xs.foldl pickBest x).1

/-! ## Data store helpers and sorting -/

/-- The dummy value behind `.getD`; `self.crypto_data[name]` is only ever
read at keys known to be present, so this value is never observed. -/
def defaultCryptoData : CryptoData :=
  { price_trend := "", market_cap := "", energy_use := "", sustainability_score := "" }

/-- `self.crypto_data[name]` at a key known to be present. -/
def getAsset (store : List (String × CryptoData)) (name : String) : CryptoData :=
  (List.lookup name store).getD defaultCryptoData

/-- Insert into a descending-by-score list, after every strictly greater
score and before every tied or smaller one. -/
def insertDesc (x : String × Int) : List (String × Int) → List (String × Int)
  | [] => [x]
  | y :: ys => if x.2 < y.2 then y :: insertDesc x ys else x :: y :: ys

/-- Python's `sorted(..., key=lambda x: x[1], reverse=True)` is a stable
descending sort; any stable descending sort computes the same list, here a
stable insertion sort. -/
def sortByScoreDesc (l : List (String × Int)) : List (String × Int) := l.foldr insertDesc []

/-- The filter loop of `get_sustainable_cryptos`: `if score and score >=
min_score` - a `None` score and the int `0` are both falsy in Python, so a
parsed score participates only when it is nonzero and at least `min_score`. -/
def sustainableFilter (store : List (String × CryptoData)) (min_score : Int) :
    List (String × Int) :=
  store.filterMap (fun p =>
    match p.2.get_sustainability_numeric_score with
    | none => none
    | some score => if score ≠ 0 ∧ min_score ≤ score then some (p.1, score) else none)

/-- `CryptoBuddy.get_sustainable_cryptos`. -/
def get_sustainable_cryptos (store : List (String × CryptoData)) (min_score : Int := 7) :
    List (String × Int) :=
  sortByScoreDesc (sustainableFilter store min_score)

/-- `CryptoBuddy.get_rising_cryptos`. -/
def get_rising_cryptos (store : List (String × CryptoData)) : List String :=
  (store.filter (fun p => p.2.price_trend == "rising")).map Prod.fst

/-! ## Number formatting

Python renders prices with `f"{x:,.2f}"` and 24h changes with
`f"{x:+.2f}"`.  The embedded rationals are rendered by rounding to two
decimals (ties to even) with the same grouping and sign conventions. -/

/-- Round to the nearest integer, ties to even. -/
def roundHalfEven (q : ℚ) : Int :=
  let f : Int := ⌊q⌋
  let r : ℚ := q - (f : ℚ)
  if r < mkRat 1 2 then f else if mkRat 1 2 < r then f + 1 else if f % 2 = 0 then f else f + 1

/-- Split a digit list into groups of three, from the left. -/
def chunk3 : List Char → List (List Char)
  | [] => []
  | [a] => [[a]]
  | [a, b] => [[a, b]]
  | a :: b :: c :: rest => [a, b, c] :: chunk3 rest

/-- Decimal digits of `n` grouped in threes by commas. -/
def natGroup (n : Nat) : String :=
  String.mk (List.intercalate [','] (((chunk3 (Nat.repr n).data.reverse).map List.reverse).reverse))

/-- Two-digit zero-padded rendering of a cent count below 100. -/
def twoPad (n : Nat) : String := if n < 10 then "0" ++ Nat.repr n else Nat.repr n

/-- `f"{q:,.2f}"`: comma-grouped, two decimals. -/
def fmtComma2 (q : ℚ) : String :=
  let c : Int := roundHalfEven (q * 100)
  (if c < 0 then "-" else "") ++ natGroup (c.natAbs / 100) ++ "." ++ twoPad (c.natAbs % 100)

/-- `f"{q:+.2f}"`: explicit sign, two decimals, no grouping. -/
def fmtSigned2 (q : ℚ) : String :=
  let c : Int := roundHalfEven (q * 100)
  (if c < 0 then "-" else "+") ++ Nat.repr (c.natAbs / 100) ++ "." ++ twoPad (c.natAbs % 100)

/-! ## Response handlers -/

/-- The fixed greeting response. -/
def greetingResponse : String :=
  "👋 Hello! I\x27m CryptoBuddy, your crypto investment advisor with real-time data! I can help you with sustainable, profitable, or long-term crypto recommendations. What interests you?"

/-- The fixed thanks response. -/
def thanksResponse : String :=
  "🙏 You\x27re very welcome! Feel free to ask more questions about crypto investments!"

/-- The fixed help response. -/
def helpResponse : String :=
  "🤖 I can help you with:\n• 🌱 Sustainable/eco-friendly cryptos\n• 📈 Profitable/trending cryptos (with real-time prices!)\n• 🚀 Long-term investment advice\n• 📊 Specific crypto details\n• 🔍 Compare different cryptocurrencies\n\nJust ask me naturally - I understand conversational language!"

/-- The "none found" fallback of the sustainability handler. -/
def sustainabilityFallback : String :=
  "I couldn\x27t find highly sustainable options in my current data. Consider asking about energy-efficient cryptos!"

/-- The "no rising trend" fallback of the profitability handler. -/
def profitabilityFallback : String :=
  "Currently no cryptos show a clear rising trend. Market conditions change rapidly!"

/-- The instruction message of the comparison handler. -/
def comparisonFallback : String :=
  "To compare cryptos, please mention at least 2 cryptocurrency names in your question!"

/-- The body of the default response (the source appends the disclaimer). -/
def defaultInfo : String :=
  "🤖 I\x27m CryptoBuddy with real-time crypto data! Ask me about:\n• Sustainable cryptos\n• Profitable opportunities\n• Current prices\n• Comparisons between cryptos\n\nTry asking naturally - I understand conversational language!"

/-- `CryptoBuddy.handle_sustainability_query`. -/
def handle_sustainability_query (store : List (String × CryptoData)) : String :=
  match get_sustainable_cryptos store with
  | [] => sustainabilityFallback
  | (best_crypto, _) :: rest =>
      let response := "🌱 For sustainability, I recommend " ++ best_crypto ++ "! " ++
        "It has an excellent sustainability score of " ++
        (getAsset store best_crypto).sustainability_score ++ ".\n"
      let response := if rest ≠ [] then
          response ++ "Other eco-friendly options: " ++
            joinSep ", " (rest.map (fun p => p.1 ++ " (" ++ toString p.2 ++ "/10)"))
        else response
      response ++ ethics_disclaimer

/-- `CryptoBuddy.handle_profitability_query`. -/
def handle_profitability_query (store : List (String × CryptoData)) : String :=
  let rising_cryptos := get_rising_cryptos store
  match rising_cryptos with
  | [] => profitabilityFallback
  | _ :: _ =>
      let response := "📈 Cryptos showing rising trends: " ++ joinSep ", " rising_cryptos ++ ".\n"
      let response := (rising_cryptos.take 3).foldl
        (fun r c =>
          let d := getAsset store c
          if d.current_price > 0 then
            r ++ "• " ++ c ++ ": $" ++ fmtComma2 d.current_price ++ " " ++
              (if d.price_change_24h ≥ 0 then "🟢" else "🔴") ++ fmtSigned2 d.price_change_24h ++ "%\n"
          else r)
        response
      response ++ ethics_disclaimer

/-- The detection loop of `handle_comparison_query`: table keys (in
insertion order) whose lowercased name occurs in the lowercased input. -/
def mentionedCryptos (store : List (String × CryptoData)) (user_input : String) : List String :=
  (store.map Prod.fst).filter (fun n => strContains (lowerChars n) (lowerChars user_input))

/-- One per-asset block of the comparison response. -/
def compareBlock (store : List (String × CryptoData)) (c : String) : String :=
  let d := getAsset store c
  "**" ++ c ++ ":**\n" ++
    (if d.current_price > 0 then
      "💰 Price: $" ++ fmtComma2 d.current_price ++ " (" ++ fmtSigned2 d.price_change_24h ++ "%)\n"
     else "") ++
    "🌱 Sustainability: " ++ d.sustainability_score ++ "\n⚡ Energy Use: " ++ d.energy_use ++ "\n\n"

/-- `CryptoBuddy.handle_comparison_query`. -/
def handle_comparison_query (store : List (String × CryptoData)) (user_input : String) : String :=
  let mentioned := mentionedCryptos store user_input
  if mentioned.length ≥ 2 then
    (mentioned.foldl (fun r c => r ++ compareBlock store c)
      ("🔍 Comparing " ++ joinSep " vs " mentioned ++ ":\n\n")) ++ ethics_disclaimer
  else comparisonFallback

/-- The formatted detail block of `get_crypto_with_prices`. -/
def cryptoDetailBlock (name : String) (d : CryptoData) : String :=
  "📊 " ++ name ++ " Details:\n" ++
    (if d.current_price > 0 then
      "💰 Current Price: $" ++ fmtComma2 d.current_price ++ "\n" ++
        (if d.price_change_24h ≥ 0 then "🟢" else "🔴") ++ " 24h Change: " ++
        fmtSigned2 d.price_change_24h ++ "%\n"
     else "") ++
    "📈 Price Trend: " ++ pyTitle d.price_trend ++ "\n🏢 Market Cap: " ++ pyTitle d.market_cap ++
    "\n⚡ Energy Use: " ++ pyTitle d.energy_use ++ "\n🌱 Sustainability Score: " ++
    d.sustainability_score

/-- `CryptoBuddy.get_crypto_with_prices`. -/
def get_crypto_with_prices (store : List (String × CryptoData)) (crypto_name : String) :
    Option String :=
  let crypto_name_title := pyTitle crypto_name
  match List.lookup crypto_name_title store with
  | none => none
  | some d => some (cryptoDetailBlock crypto_name_title d)

/-- One row of the "general price info" table. -/
def priceRow (p : String × CryptoData) : String :=
  "• " ++ p.1 ++ ": $" ++ fmtComma2 p.2.current_price ++ " " ++
    (if p.2.price_change_24h ≥ 0 then "🟢" else "🔴") ++ fmtSigned2 p.2.price_change_24h ++ "%\n"

/-- The "general price info" table of the `price` branch of `get_response`:
one row per asset with a known (positive) live price. -/
def allPricesTable (store : List (String × CryptoData)) : String :=
  store.foldl
    (fun r p => if p.2.current_price > 0 then r ++ priceRow p else r)
    "📊 Current Crypto Prices:\n"

/-- The `for crypto_name in self.crypto_data.keys(): if ... return` loops of
`get_response`: the first table key (in insertion order) mentioned in the
input, if any. -/
def firstMentioned (store : List (String × CryptoData)) (user_input : String) : Option String :=
  (store.find? (fun p => strContains (lowerChars p.1) (lowerChars user_input))).map Prod.fst

/-- Lines 322-333 of `get_response`: reached when no intent scored or the
top intent has no dedicated branch - a mentioned asset's details, else the
default response. -/
def fallthroughResponse (store : List (String × CryptoData)) (user_input : String) : String :=
  match firstMentioned store user_input with
  | some name => (get_crypto_with_prices store name).getD "" ++ ethics_disclaimer
  | none => defaultInfo ++ ethics_disclaimer

/-- `CryptoBuddy.get_response`, with the normalizer output passed in as
`key_terms` (see the header note). -/
def get_response (store : List (String × CryptoData)) (key_terms : List String)
    (raw_input : String) : String :=
  let user_input : String := String.mk (pyStrip raw_input.data)
  if match_pattern user_input "exit" then "EXIT"
  else
    match top_intent (analyze_intent key_terms user_input) with
    | some ti =>
        if ti = "greeting" then greetingResponse
        else if ti = "thanks" then thanksResponse
        else if ti = "help" then helpResponse
        else if ti = "compare" then handle_comparison_query store user_input
        else if ti = "sustainable" then handle_sustainability_query store
        else if ti = "profitable" then handle_profitability_query store
        else if ti = "price" then
          match firstMentioned store user_input with
          | some name => (get_crypto_with_prices store name).getD "" ++ ethics_disclaimer
          | none => allPricesTable store ++ ethics_disclaimer
        else fallthroughResponse store user_input
    | none => fallthroughResponse store user_input

/-! ## Auxiliary definitions for the statements below -/

/-- Concatenation of a list of strings. -/
def concatStrs : List String → String
  | [] => ""
  | x :: xs => x ++ concatStrs xs

/-- An alternative consisting of a single non-empty literal none of whose
characters case-folds to whitespace.  Every alternative of the `exit`
pattern has this shape. -/
def altOkB : RAlt → Bool
  | [Seg.lit w] => !w.isEmpty && w.all (fun c => !c.toLower.isWhitespace)
  | _ => false

/-- All alternatives of the pattern satisfy `altOkB`. -/
def patOkB (pat : RPat) : Bool := pat.all altOkB

/-- The `exit` pattern `\b(exit|quit|bye|goodbye|stop|end)\b` as stored in
the table (see `patterns`). -/
def exitPattern : RPat := lits ["exit", "quit", "bye", "goodbye", "stop", "end"]

/-- A one-asset store whose sustainability display string parses to the
numeric score 0 (a legal data-store state of the `CryptoData` model). -/
def zeroScoreStore : List (String × CryptoData) :=
  [("Greencoin", { price_trend := "stable", market_cap := "low", energy_use := "low",
                   sustainability_score := "0/10" })]

/-- A decoded feed in which Bitcoin's entry is complete but Ethereum's
entry lacks the `usd` price field. -/
def partialFeed : Feed :=
  [("bitcoin", { usd := some 100, usd_24h_change := some 1 }),
   ("ethereum", { usd := none, usd_24h_change := none })]

/-! # Lemmas -/

/-! ## Counting folds (the score accumulations of `intentScore`) -/

theorem foldl_count_one (input : String) :
    ∀ (pats : List RPat) (b : ℚ),
      pats.foldl (fun s p => if reSearch p input then s + 1 else s) b =
        b + (pats.countP (fun p => reSearch p input) : ℚ)
  | [], b => by simp
  | x :: l, b => by
      by_cases h : reSearch x input <;>
        simp [List.countP_cons, h, foldl_count_one input l] <;>
        push_cast <;> ring

theorem foldl_count_half (ks : List String) :
    ∀ (kt : List String) (b : ℚ),
      kt.foldl (fun s t => if t ∈ ks then s + mkRat 1 2 else s) b =
        b + (kt.countP (fun t => t ∈ ks) : ℚ) * mkRat 1 2
  | [], b => by simp
  | x :: l, b => by
      by_cases h : x ∈ ks <;>
        simp [List.countP_cons, h, foldl_count_half ks l] <;>
        push_cast <;> ring

/-! ## The classifier score formula -/

theorem intentScore_eq (kt : List String) (input intent : String) (pats : List RPat) :
    intentScore kt input intent pats =
      (pats.countP (fun p => reSearch p input) : ℚ) +
        (kt.countP (fun t => t ∈ (List.lookup intent intent_keywords).getD []) : ℚ) * mkRat 1 2 := by
  unfold intentScore
  cases h : List.lookup intent intent_keywords with
  | none =>
      simp [h, foldl_count_one input pats 0]
  | some ks =>
      simp [h, foldl_count_half ks kt, foldl_count_one input pats 0]

theorem foldl_filter_append {α β : Type} (P : α → Prop) [DecidablePred P] (g : α → β) :
    ∀ (l : List α) (acc : List β),
      l.foldl (fun acc x => if P x then acc ++ [g x] else acc) acc =
        acc ++ (l.filter (fun x => P x)).map g
  | [], acc => by simp
  | x :: l, acc => by
      by_cases h : P x <;>
        simp [h, List.filter_cons, foldl_filter_append P g l]

theorem analyze_intent_eq (kt : List String) (input : String) :
    analyze_intent kt input =
      (patterns.filter (fun p => intentScore kt input p.1 p.2 > 0)).map
        (fun p => (p.1, intentScore kt input p.1 p.2)) := by
  unfold analyze_intent
  generalize patterns = tbl
  rw [foldl_filter_append (fun p => intentScore kt input p.1 p.2 > 0)
    (fun p => (p.1, intentScore kt input p.1 p.2)) tbl []]
  simp

/-! ## Association-list lookups -/

theorem lookup_mem_of_mem_keys {β : Type} :
    ∀ (l : List (String × β)) (k : String), k ∈ l.map Prod.fst →
      ∃ v, List.lookup k l = some v ∧ (k, v) ∈ l
  | [], k, h => by simp at h
  | (a, b) :: t, k, h => by
      by_cases hk : k = a
      · subst hk
        exact ⟨b, by simp [List.lookup], by simp⟩
      · have hmem : k ∈ t.map Prod.fst := by
          simpa [hk] using h
        obtain ⟨v, hv, hvmem⟩ := lookup_mem_of_mem_keys t k hmem
        exact ⟨v, by simp [List.lookup, beq_false_of_ne hk, hv], by simp [hvmem]⟩

theorem lookup_scored_none (f : String × List RPat → ℚ) (a : String) :
    ∀ (t : List (String × List RPat)), a ∉ t.map Prod.fst →
      List.lookup a ((t.filter (fun p => f p > 0)).map (fun p => (p.1, f p))) = none
  | [], _ => by simp
  | (x, y) :: t, h => by
      have hne : a ≠ x := by
        intro hax
        exact h (by simp [hax])
      have hnotin : a ∉ t.map Prod.fst := fun hmem => h (by simp [hmem])
      by_cases hp : f (x, y) > 0 <;>
        simp [List.filter_cons, hp, List.lookup, beq_false_of_ne hne,
          lookup_scored_none f a t hnotin]

theorem lookup_scored (f : String × List RPat → ℚ) :
    ∀ (tbl : List (String × List RPat)), (tbl.map Prod.fst).Nodup →
      ∀ intent pats, (intent, pats) ∈ tbl →
        List.lookup intent ((tbl.filter (fun p => f p > 0)).map (fun p => (p.1, f p))) =
          (if f (intent, pats) > 0 then some (f (intent, pats)) else none)
  | [], _, intent, pats, hmem => by simp at hmem
  | (a, b) :: t, hnd, intent, pats, hmem => by
      rw [List.map_cons, List.nodup_cons] at hnd
      rcases List.mem_cons.mp hmem with heq | hmem'
      · injection heq with h1 h2
        subst h1
        subst h2
        by_cases hp : f (intent, pats) > 0
        · simp [List.filter_cons, hp, List.lookup]
        · simp only [List.filter_cons, if_neg hp]
          simp [lookup_scored_none f intent t hnd.1, hp]
      · have hne : intent ≠ a := by
          rintro rfl
          exact hnd.1 (List.mem_map.mpr ⟨(intent, pats), hmem', rfl⟩)
        by_cases hp : f (a, b) > 0 <;>
          simp [List.filter_cons, hp, List.lookup, beq_false_of_ne hne,
            lookup_scored f t hnd.2 intent pats hmem']

/-! ## The stable argmax of `top_intent` -/

theorem foldl_max_ge_seed :
    ∀ (xs : List (String × ℚ)) (x : String × ℚ),
      x.2 ≤ (xs.foldl pickBest x).2
  | [], _ => le_refl _
  | y :: ys, x => by
      simp only [List.foldl_cons, pickBest]
      by_cases h : y.2 > x.2
      · rw [if_pos h]
        exact le_trans (le_of_lt h) (foldl_max_ge_seed ys y)
      · rw [if_neg h]
        exact foldl_max_ge_seed ys x

theorem foldl_max_split :
    ∀ (xs : List (String × ℚ)) (x : String × ℚ),
      ∃ pre post,
        x :: xs = pre ++ (xs.foldl pickBest x) :: post ∧
        (∀ q ∈ pre, q.2 < (xs.foldl pickBest x).2) ∧
        (∀ q ∈ post, q.2 ≤ (xs.foldl pickBest x).2)
  | [], x => ⟨[], [], by simp, by simp, by simp⟩
  | y :: ys, x => by
      simp only [List.foldl_cons, pickBest]
      by_cases h : y.2 > x.2
      · rw [if_pos h]
        obtain ⟨pre, post, heq, hpre, hpost⟩ := foldl_max_split ys y
        refine ⟨x :: pre, post, ?_, ?_, hpost⟩
        · rw [List.cons_append, ← heq]
        · intro q hq
          rcases List.mem_cons.mp hq with rfl | hq'
          · exact lt_of_lt_of_le h (foldl_max_ge_seed ys y)
          · exact hpre q hq'
      · rw [if_neg h]
        obtain ⟨pre, post, heq, hpre, hpost⟩ := foldl_max_split ys x
        cases pre with
        | nil =>
            simp only [List.nil_append] at heq
            injection heq with h1 h2
            refine ⟨[], y :: post, ?_, by simp, ?_⟩
            · simp only [List.nil_append, ← h2]
              rw [← h1]
            · intro q hq
              rcases List.mem_cons.mp hq with rfl | hq'
              · rw [← h1]
                exact le_of_not_lt h
              · exact hpost q hq'
        | cons a pre' =>
            rw [List.cons_append] at heq
            injection heq with h1 h2
            refine ⟨x :: y :: pre', post, ?_, ?_, hpost⟩
            · rw [List.cons_append, List.cons_append, ← h2]
            · intro q hq
              have hx : x.2 < (ys.foldl pickBest x).2 := by
                apply hpre
                rw [h1]
                exact List.mem_cons_self a pre'
              rcases List.mem_cons.mp hq with rfl | hq'
              · exact hx
              · rcases List.mem_cons.mp hq' with rfl | hq2
                · exact lt_of_le_of_lt (le_of_not_lt h) hx
                · exact hpre q (by simp [hq2])

/-! # Claim theorems -/

/-- Claim C8: for every input, each intent's classifier score is 1 per regex
pattern of the intent matching the raw input case-insensitively, plus 0.5
(`mkRat 1 2`) per normalizer key term lying in the intent's keyword-boost
set (intents without a boost set get none); intents with score 0 are
omitted, and the empty string yields an empty mapping. -/
theorem claim_C8 :
    (∀ (key_terms : List String) (user_input intent : String),
        intent ∈ patterns.map Prod.fst →
        List.lookup intent (analyze_intent key_terms user_input) =
          (let s : ℚ :=
            ((((List.lookup intent patterns).getD []).countP
                (fun p => reSearch p user_input) : ℚ) +
              (key_terms.countP
                (fun t => t ∈ (List.lookup intent intent_keywords).getD []) : ℚ) * mkRat 1 2)
           if 0 < s then some s else none)) ∧
    analyze_intent (extract_key_terms_fallback "") "" = [] := by
  constructor
  · intro kt input intent hmem
    obtain ⟨pats, hlk, hpmem⟩ := lookup_mem_of_mem_keys patterns intent hmem
    rw [analyze_intent_eq]
    rw [lookup_scored (fun p => intentScore kt input p.1 p.2) patterns (by decide) intent pats hpmem]
    simp only [hlk, Option.getD_some, intentScore_eq, gt_iff_lt]
  · decide

unseal Rat.add in
/-- Witness for C8: the input "hello" with no key terms scores the
`greeting` intent by its single matching pattern. -/
theorem claim_C8_witness :
    ("greeting" ∈ patterns.map Prod.fst) ∧
      List.lookup "greeting" (analyze_intent [] "hello") =
        (let s : ℚ :=
          ((((List.lookup "greeting" patterns).getD []).countP
              (fun p => reSearch p "hello") : ℚ) +
            (([] : List String).countP
              (fun t => t ∈ (List.lookup "greeting" intent_keywords).getD []) : ℚ) * mkRat 1 2)
         if 0 < s then some s else none) :=
  ⟨by decide, claim_C8.1 [] "hello" "greeting" (by decide)⟩

theorem analyze_intent_keys_sublist (kt : List String) (input : String) :
    ((analyze_intent kt input).map Prod.fst).Sublist (patterns.map Prod.fst) := by
  rw [analyze_intent_eq]
  rw [List.map_map]
  have hcomp : (Prod.fst ∘ fun p : String × List RPat => (p.1, intentScore kt input p.1 p.2)) =
      Prod.fst := rfl
  rw [hcomp]
  exact (List.filter_sublist patterns).map Prod.fst

theorem top_intent_split (x : String × ℚ) (xs : List (String × ℚ)) :
    ∃ m pre post,
      top_intent (x :: xs) = some (Prod.fst m) ∧
      x :: xs = pre ++ m :: post ∧
      (∀ q ∈ pre, q.2 < m.2) ∧
      (∀ q ∈ post, q.2 ≤ m.2) := by
  obtain ⟨pre, post, heq, hpre, hpost⟩ := foldl_max_split xs x
  refine ⟨xs.foldl pickBest x, pre, post, ?_,
    heq, hpre, hpost⟩
  rfl

/-- Claim C9: on a non-empty classifier result the caller selects the
intent of strictly greatest score; at ties the entry listed first wins, and
the result list's order is inherited from the fixed intent table
(`patterns`), its key sequence being a sublist of the table's keys. -/
theorem claim_C9 :
    ∀ (key_terms : List String) (user_input : String),
      analyze_intent key_terms user_input ≠ [] →
      ∃ i s pre post,
        top_intent (analyze_intent key_terms user_input) = some i ∧
        analyze_intent key_terms user_input = pre ++ (i, s) :: post ∧
        (∀ q ∈ pre, q.2 < s) ∧
        (∀ q ∈ post, q.2 ≤ s) ∧
        ((analyze_intent key_terms user_input).map Prod.fst).Sublist (patterns.map Prod.fst) := by
  intro kt input hne
  obtain ⟨x, xs, hscores⟩ := List.exists_cons_of_ne_nil hne
  obtain ⟨m, pre, post, h1, h2, h3, h4⟩ := top_intent_split x xs
  refine ⟨m.1, m.2, pre, post, ?_, ?_, h3, h4, analyze_intent_keys_sublist kt input⟩
  · rw [hscores]
    exact h1
  · rw [hscores]
    simpa using h2

unseal Rat.add in
/-- Witness for C9: the input "hello" yields a singleton score list whose
maximum is the `greeting` intent. -/
theorem claim_C9_witness :
    (analyze_intent [] "hello" ≠ []) ∧
      (∃ i s pre post,
        top_intent (analyze_intent [] "hello") = some i ∧
        analyze_intent [] "hello" = pre ++ (i, s) :: post ∧
        (∀ q ∈ pre, q.2 < s) ∧
        (∀ q ∈ post, q.2 ≤ s) ∧
        ((analyze_intent [] "hello").map Prod.fst).Sublist (patterns.map Prod.fst)) :=
  ⟨by decide, claim_C9 [] "hello" (by decide)⟩

/-! ## The stable descending sort of `get_sustainable_cryptos` -/

theorem insertDesc_perm (x : String × Int) : ∀ (l : List (String × Int)),
    (insertDesc x l).Perm (x :: l)
  | [] => List.Perm.refl _
  | y :: ys => by
      unfold insertDesc
      by_cases h : x.2 < y.2
      · rw [if_pos h]
        exact ((insertDesc_perm x ys).cons y).trans (List.Perm.swap x y ys)
      · rw [if_neg h]

theorem sortByScoreDesc_perm : ∀ (l : List (String × Int)), (sortByScoreDesc l).Perm l
  | [] => List.Perm.refl _
  | x :: xs => by
      unfold sortByScoreDesc
      rw [List.foldr_cons]
      exact (insertDesc_perm x (sortByScoreDesc xs)).trans ((sortByScoreDesc_perm xs).cons x)

theorem mem_sortByScoreDesc (p : String × Int) (l : List (String × Int)) :
    p ∈ sortByScoreDesc l ↔ p ∈ l :=
  (sortByScoreDesc_perm l).mem_iff

theorem mem_insertDesc (p x : String × Int) (l : List (String × Int)) :
    p ∈ insertDesc x l ↔ p = x ∨ p ∈ l := by
  rw [(insertDesc_perm x l).mem_iff]
  simp

theorem insertDesc_sorted (x : String × Int) :
    ∀ (l : List (String × Int)), l.Pairwise (fun a b => b.2 ≤ a.2) →
      (insertDesc x l).Pairwise (fun a b => b.2 ≤ a.2)
  | [], _ => by simp [insertDesc]
  | y :: ys, h => by
      rw [List.pairwise_cons] at h
      unfold insertDesc
      by_cases hxy : x.2 < y.2
      · rw [if_pos hxy]
        rw [List.pairwise_cons]
        constructor
        · intro q hq
          rcases (mem_insertDesc q x ys).mp hq with rfl | hq'
          · exact le_of_lt hxy
          · exact h.1 q hq'
        · exact insertDesc_sorted x ys h.2
      · rw [if_neg hxy]
        rw [List.pairwise_cons]
        refine ⟨?_, List.pairwise_cons.mpr h⟩
        intro q hq
        rcases List.mem_cons.mp hq with rfl | hq'
        · exact le_of_not_lt hxy
        · exact le_trans (h.1 q hq') (le_of_not_lt hxy)

theorem sortByScoreDesc_sorted : ∀ (l : List (String × Int)),
    (sortByScoreDesc l).Pairwise (fun a b => b.2 ≤ a.2)
  | [] => by simp [sortByScoreDesc]
  | x :: xs => by
      unfold sortByScoreDesc
      rw [List.foldr_cons]
      exact insertDesc_sorted x (sortByScoreDesc xs) (sortByScoreDesc_sorted xs)

theorem filter_insertDesc (k : Int) (x : String × Int) :
    ∀ (l : List (String × Int)),
      (insertDesc x l).filter (fun q => q.2 == k) = (x :: l).filter (fun q => q.2 == k)
  | [] => rfl
  | y :: ys => by
      unfold insertDesc
      by_cases h : x.2 < y.2
      · rw [if_pos h]
        by_cases hx : x.2 = k <;> by_cases hy : y.2 = k
        · omega
        · simp only [List.filter_cons, filter_insertDesc k x ys]
          simp [hx, hy]
        · simp only [List.filter_cons, filter_insertDesc k x ys]
          simp [hx, hy]
        · simp only [List.filter_cons, filter_insertDesc k x ys]
          simp [hx, hy]
      · rw [if_neg h]

theorem filter_sortByScoreDesc (k : Int) : ∀ (l : List (String × Int)),
    (sortByScoreDesc l).filter (fun q => q.2 == k) = l.filter (fun q => q.2 == k)
  | [] => rfl
  | x :: xs => by
      have hstep : sortByScoreDesc (x :: xs) = insertDesc x (sortByScoreDesc xs) := rfl
      rw [hstep]
      rw [filter_insertDesc k x (sortByScoreDesc xs)]
      simp only [List.filter_cons, filter_sortByScoreDesc k xs]

theorem mem_sustainableFilter (store : List (String × CryptoData)) (m : Int)
    (n : String) (s : Int) :
    (n, s) ∈ sustainableFilter store m ↔
      ∃ d, (n, d) ∈ store ∧ d.get_sustainability_numeric_score = some s ∧ s ≠ 0 ∧ m ≤ s := by
  unfold sustainableFilter
  rw [List.mem_filterMap]
  constructor
  · rintro ⟨⟨a, d⟩, hmem, hf⟩
    cases hsc : d.get_sustainability_numeric_score with
    | none =>
        simp only [hsc] at hf
        exact absurd hf (by simp)
    | some sc =>
        simp only [hsc] at hf
        by_cases hcond : sc ≠ 0 ∧ m ≤ sc
        · rw [if_pos hcond] at hf
          injection hf with hf2
          injection hf2 with h1 h2
          subst h1
          subst h2
          exact ⟨d, hmem, hsc, hcond.1, hcond.2⟩
        · rw [if_neg hcond] at hf
          exact absurd hf (by simp)
  · rintro ⟨d, hmem, hsc, hs0, hms⟩
    refine ⟨(n, d), hmem, ?_⟩
    simp only [hsc]
    rw [if_pos ⟨hs0, hms⟩]

/-- Claim C5, amended: for every threshold and store state,
`get_sustainable_cryptos` returns exactly the (name, score) pairs whose
parsed sustainability score is nonzero (Python truthiness of the int) and
at least the threshold, sorted descending by score with ties kept in the
stable original table order, and its default threshold is 7.  (The original
claim, refuted by `claim_C5_counterexample`, admitted a parsed score of 0
at threshold 0.) -/
theorem claim_C5_amended :
    ∀ (store : List (String × CryptoData)) (min_score : Int),
      (∀ n s, (n, s) ∈ get_sustainable_cryptos store min_score ↔
          ∃ d, (n, d) ∈ store ∧ d.get_sustainability_numeric_score = some s ∧
            s ≠ 0 ∧ min_score ≤ s) ∧
      (get_sustainable_cryptos store min_score).Pairwise (fun a b => b.2 ≤ a.2) ∧
      (∀ k, (get_sustainable_cryptos store min_score).filter (fun q => q.2 == k) =
          (sustainableFilter store min_score).filter (fun q => q.2 == k)) ∧
      get_sustainable_cryptos store = get_sustainable_cryptos store 7 := by
  intro store m
  refine ⟨?_, sortByScoreDesc_sorted _, fun k => filter_sortByScoreDesc k _, rfl⟩
  intro n s
  rw [show get_sustainable_cryptos store m = sortByScoreDesc (sustainableFilter store m) from rfl]
  rw [mem_sortByScoreDesc]
  exact mem_sustainableFilter store m n s

/-- Counterexample for claim C5 as stated: in a store whose only asset's
sustainability display string parses to the numeric score 0, the claim
demands that `sustainableAssets(0)` return that asset (its score is ≥ 0),
but the code returns the empty list. -/
theorem claim_C5_counterexample :
    ("Greencoin", getAsset zeroScoreStore "Greencoin") ∈ zeroScoreStore ∧
      (getAsset zeroScoreStore "Greencoin").get_sustainability_numeric_score = some 0 ∧
      (0 : Int) ≤ 0 ∧
      get_sustainable_cryptos zeroScoreStore 0 = [] := by
  decide

/-- Claim C10: an asset whose sustainability string parses to the score 0
is excluded from `get_sustainable_cryptos` at every threshold (the result
never contains a zero score), and such an asset contributes exactly as if
its score were unparseable: prepending it to any store leaves the result
unchanged, just as prepending an asset with an unparseable score does. -/
theorem claim_C10 :
    (∀ (store : List (String × CryptoData)) (m : Int) (p : String × Int),
        p ∈ get_sustainable_cryptos store m → p.2 ≠ 0) ∧
    (∀ (store : List (String × CryptoData)) (n : String) (d : CryptoData) (m : Int),
        d.get_sustainability_numeric_score = some 0 →
        get_sustainable_cryptos ((n, d) :: store) m = get_sustainable_cryptos store m) ∧
    (∀ (store : List (String × CryptoData)) (n : String) (d : CryptoData) (m : Int),
        d.get_sustainability_numeric_score = none →
        get_sustainable_cryptos ((n, d) :: store) m = get_sustainable_cryptos store m) := by
  refine ⟨?_, ?_, ?_⟩
  · rintro store m ⟨n, s⟩ hp
    rw [show get_sustainable_cryptos store m = sortByScoreDesc (sustainableFilter store m)
      from rfl] at hp
    rw [mem_sortByScoreDesc] at hp
    obtain ⟨d, _, _, hs0, _⟩ := (mem_sustainableFilter store m n s).mp hp
    exact hs0
  · intro store n d m h0
    rw [show get_sustainable_cryptos ((n, d) :: store) m =
      sortByScoreDesc (sustainableFilter ((n, d) :: store) m) from rfl]
    have hfil : sustainableFilter ((n, d) :: store) m = sustainableFilter store m := by
      unfold sustainableFilter
      rw [List.filterMap_cons]
      simp [h0]
    rw [hfil]
    rfl
  · intro store n d m h0
    rw [show get_sustainable_cryptos ((n, d) :: store) m =
      sortByScoreDesc (sustainableFilter ((n, d) :: store) m) from rfl]
    have hfil : sustainableFilter ((n, d) :: store) m = sustainableFilter store m := by
      unfold sustainableFilter
      rw [List.filterMap_cons]
      simp [h0]
    rw [hfil]
    rfl

/-- Witness for C10 at a concrete input: the element ("Polygon", 9) of the
default-threshold result of the initial store has a nonzero score, and
prepending a 0-score asset to the initial store leaves the result
unchanged. -/
theorem claim_C10_witness :
    (("Polygon", (9 : Int)) ∈ get_sustainable_cryptos initialCryptoData 7) ∧
      (("Polygon", (9 : Int)) : String × Int).2 ≠ 0 :=
  ⟨by decide, claim_C10.1 initialCryptoData 7 ("Polygon", 9) (by decide)⟩

/-! ## Price Fetcher lemmas -/

theorem lookup_updateStore_self (name : String) (f : CryptoData → CryptoData) :
    ∀ (store : List (String × CryptoData)),
      List.lookup name (updateStore store name f) = (List.lookup name store).map f
  | [] => rfl
  | (a, d) :: t => by
      unfold updateStore
      by_cases h : a = name
      · subst h
        rw [List.map_cons, if_pos (rfl : (a, d).1 = a)]
        simp [List.lookup]
      · rw [List.map_cons]
        simp only [if_neg h]
        simp only [List.lookup, beq_false_of_ne (fun he => h he.symm)]
        exact lookup_updateStore_self name f t

theorem lookup_updateStore_other (name other : String) (f : CryptoData → CryptoData)
    (hne : name ≠ other) :
    ∀ (store : List (String × CryptoData)),
      List.lookup name (updateStore store other f) = List.lookup name store
  | [] => rfl
  | (a, d) :: t => by
      unfold updateStore
      rw [List.map_cons]
      by_cases h : a = other
      · subst h
        simp only [if_pos rfl]
        simp only [List.lookup, beq_false_of_ne hne]
        exact lookup_updateStore_other name a f hne t
      · simp only [if_neg h]
        simp only [List.lookup]
        cases hb : (name == a)
        · exact lookup_updateStore_other name other f hne t
        · rfl

theorem fetchLoop_lookup_notin (feed : Feed) (name : String) :
    ∀ (ids : List (String × String)) (store : List (String × CryptoData)),
      name ∉ ids.map Prod.fst →
      List.lookup name (fetchLoop feed ids store).1 = List.lookup name store
  | [], _, _ => rfl
  | (n0, a0) :: rest, store, h => by
      have hne : name ≠ n0 := fun he => h (by simp [he])
      have hrest : name ∉ rest.map Prod.fst := fun hm => h (by simp [hm])
      cases hl : List.lookup a0 feed with
      | none =>
          simp only [fetchLoop, hl]
          exact fetchLoop_lookup_notin feed name rest store hrest
      | some e =>
          cases hu : e.usd with
          | none => simp only [fetchLoop, hl, hu]
          | some price =>
              simp only [fetchLoop, hl, hu]
              rw [fetchLoop_lookup_notin feed name rest _ hrest]
              exact lookup_updateStore_other name n0 _ hne store

theorem fetchLoop_ok_lookup (feed : Feed) :
    ∀ (ids : List (String × String)) (store : List (String × CryptoData))
      (name apiId : String) (e : FeedEntry) (p : ℚ),
      (ids.map Prod.fst).Nodup →
      (fetchLoop feed ids store).2 = true →
      (name, apiId) ∈ ids →
      List.lookup apiId feed = some e →
      e.usd = some p →
      List.lookup name (fetchLoop feed ids store).1 =
        (List.lookup name store).map (fun d => applyFeedEntry d p (e.usd_24h_change.getD 0))
  | [], _, _, _, _, _, _, _, hmem, _, _ => absurd hmem (by simp)
  | (n0, a0) :: rest, store, name, apiId, e, p, hnd, hok, hmem, hl, hu => by
      rw [List.map_cons, List.nodup_cons] at hnd
      rcases List.mem_cons.mp hmem with heq | hmem'
      · injection heq with h1 h2
        subst h1
        subst h2
        simp only [fetchLoop, hl, hu]
        rw [fetchLoop_lookup_notin feed name rest _ hnd.1]
        exact lookup_updateStore_self name _ store
      · have hname : name ≠ n0 := by
          rintro rfl
          exact hnd.1 (List.mem_map.mpr ⟨(name, apiId), hmem', rfl⟩)
        cases hl0 : List.lookup a0 feed with
        | none =>
            simp only [fetchLoop, hl0] at hok ⊢
            exact fetchLoop_ok_lookup feed rest store name apiId e p hnd.2 hok hmem' hl hu
        | some e0 =>
            cases hu0 : e0.usd with
            | none =>
                simp only [fetchLoop, hl0, hu0] at hok
                exact absurd hok (by simp)
            | some p0 =>
                simp only [fetchLoop, hl0, hu0] at hok ⊢
                rw [fetchLoop_ok_lookup feed rest _ name apiId e p hnd.2 hok hmem' hl hu]
                rw [lookup_updateStore_other name n0 _ hname store]

theorem fetchLoop_false (feed : Feed) :
    ∀ (ids : List (String × String)) (store : List (String × CryptoData)),
      (ids.any (fun pr => match List.lookup pr.2 feed with
        | some e => e.usd.isNone
        | none => false)) = true →
      (fetchLoop feed ids store).2 = false
  | [], _, h => by simp at h
  | (n0, a0) :: rest, store, h => by
      cases hl : List.lookup a0 feed with
      | none =>
          simp only [fetchLoop, hl]
          apply fetchLoop_false feed rest store
          rw [List.any_cons] at h
          simpa [hl] using h
      | some e =>
          cases hu : e.usd with
          | none => simp only [fetchLoop, hl, hu]
          | some p =>
              simp only [fetchLoop, hl, hu]
              apply fetchLoop_false feed rest _
              rw [List.any_cons] at h
              simpa [hl, hu] using h

/-- Claim C1, amended: when the refresh fails before any per-asset
processing (network error, malformed response, timeout - the `none`
response), every asset's fields are unchanged and failure is reported; a
feed entry lacking its `usd` price field also makes the refresh report
failure, but (per `claim_C1_counterexample`) it does not undo updates
already applied to assets earlier in the iteration order. -/
theorem claim_C1_amended :
    (∀ store : List (String × CryptoData), fetch_real_time_data store none = (store, false)) ∧
    (∀ (store : List (String × CryptoData)) (feed : Feed),
        (crypto_api_ids.any (fun pr => match List.lookup pr.2 feed with
          | some e => e.usd.isNone
          | none => false)) = true →
        (fetch_real_time_data store (some feed)).2 = false) := by
  constructor
  · intro store
    rfl
  · intro store feed h
    exact fetchLoop_false feed crypto_api_ids store h

/-- Witness for the amended C1: on a feed whose Ethereum entry lacks the
price field the refresh reports failure. -/
theorem claim_C1_witness :
    ((crypto_api_ids.any (fun pr => match List.lookup pr.2 partialFeed with
        | some e => e.usd.isNone
        | none => false)) = true) ∧
      (fetch_real_time_data initialCryptoData (some partialFeed)).2 = false :=
  ⟨by decide, claim_C1_amended.2 initialCryptoData partialFeed (by decide)⟩

set_option maxRecDepth 100000 in
/-- Counterexample for claim C1 as stated: on a feed whose Bitcoin entry is
complete but whose Ethereum entry lacks the `usd` field, the refresh
reports failure, yet Bitcoin's stored data has changed from its pre-call
value - an asset is updated on a failure path. -/
theorem claim_C1_counterexample :
    (fetch_real_time_data initialCryptoData (some partialFeed)).2 = false ∧
      List.lookup "Bitcoin" (fetch_real_time_data initialCryptoData (some partialFeed)).1 ≠
        List.lookup "Bitcoin" initialCryptoData := by
  decide

/-- Claim C6: on a successful refresh, every asset whose feed entry is
present (with its price field) stores the trend derived from the 24h
change by strict thresholds: above 5 rising, below -5 falling, otherwise
(including exactly 5 and -5) stable; the price and change fields are taken
from the entry (a missing change field defaults to 0). -/
theorem claim_C6 :
    ∀ (store : List (String × CryptoData)) (feed : Feed) (name apiId : String)
      (e : FeedEntry) (p : ℚ) (d' : CryptoData),
      (fetch_real_time_data store (some feed)).2 = true →
      (name, apiId) ∈ crypto_api_ids →
      List.lookup apiId feed = some e →
      e.usd = some p →
      List.lookup name (fetch_real_time_data store (some feed)).1 = some d' →
      d'.price_trend = (if 5 < e.usd_24h_change.getD 0 then "rising"
        else if e.usd_24h_change.getD 0 < -5 then "falling" else "stable") ∧
      d'.current_price = p ∧
      d'.price_change_24h = e.usd_24h_change.getD 0 := by
  intro store feed name apiId e p d' hok hmem hl hu hlk
  have h := fetchLoop_ok_lookup feed crypto_api_ids store name apiId e p (by decide) hok hmem hl hu
  rw [show fetch_real_time_data store (some feed) = fetchLoop feed crypto_api_ids store
    from rfl] at hlk
  rw [h] at hlk
  cases hs : List.lookup name store with
  | none =>
      rw [hs] at hlk
      exact absurd hlk (by simp)
  | some d0 =>
      rw [hs] at hlk
      simp only [Option.map_some'] at hlk
      injection hlk with hd
      subst hd
      refine ⟨?_, rfl, rfl⟩
      simp [applyFeedEntry, trendOfChange, gt_iff_lt]

set_option maxRecDepth 100000 in
/-- Witness for C6: a feed giving Bitcoin a 24h change of exactly 5 sets
the boundary trend "stable" (strict inequality). -/
theorem claim_C6_witness :
    ((fetch_real_time_data initialCryptoData
        (some [("bitcoin", { usd := some 50000, usd_24h_change := some 5 })])).2 = true) ∧
      (("Bitcoin", "bitcoin") ∈ crypto_api_ids) ∧
      (List.lookup "bitcoin" [("bitcoin",
          ({ usd := some 50000, usd_24h_change := some 5 } : FeedEntry))] =
        some { usd := some 50000, usd_24h_change := some 5 }) ∧
      (({ usd := some 50000, usd_24h_change := some 5 } : FeedEntry).usd = some 50000) ∧
      (List.lookup "Bitcoin" (fetch_real_time_data initialCryptoData
          (some [("bitcoin", { usd := some 50000, usd_24h_change := some 5 })])).1 =
        some { price_trend := "stable", market_cap := "high", energy_use := "high",
               sustainability_score := "3/10", current_price := 50000,
               price_change_24h := 5 }) ∧
      (({ price_trend := "stable", market_cap := "high", energy_use := "high",
          sustainability_score := "3/10", current_price := 50000,
          price_change_24h := 5 } : CryptoData).price_trend =
        (if 5 < (({ usd := some 50000, usd_24h_change := some 5 } : FeedEntry).usd_24h_change.getD 0)
         then "rising"
         else if (({ usd := some 50000, usd_24h_change := some 5 } : FeedEntry).usd_24h_change.getD 0) < -5
         then "falling" else "stable")) :=
  ⟨by decide, by decide, by decide, by decide, by decide,
    (claim_C6 initialCryptoData [("bitcoin", { usd := some 50000, usd_24h_change := some 5 })]
      "Bitcoin" "bitcoin" { usd := some 50000, usd_24h_change := some 5 } 50000
      { price_trend := "stable", market_cap := "high", energy_use := "high",
        sustainability_score := "3/10", current_price := 50000, price_change_24h := 5 }
      (by decide) (by decide) (by decide) (by decide) (by decide)).1⟩

/-! ## String concatenation folds of the handlers -/

theorem foldl_append_concat (f : String → String) :
    ∀ (l : List String) (init : String),
      l.foldl (fun r c => r ++ f c) init = init ++ concatStrs (l.map f)
  | [], init => by simp [concatStrs]
  | x :: l, init => by
      simp only [List.foldl_cons, List.map_cons, concatStrs]
      rw [foldl_append_concat f l (init ++ f x)]
      rw [String.append_assoc]

theorem foldl_priceRows :
    ∀ (store : List (String × CryptoData)) (init : String),
      store.foldl (fun r p => if p.2.current_price > 0 then r ++ priceRow p else r) init =
        init ++ concatStrs ((store.filter (fun p => p.2.current_price > 0)).map priceRow)
  | [], init => by simp [concatStrs]
  | x :: l, init => by
      simp only [List.foldl_cons, List.filter_cons]
      by_cases h : x.2.current_price > 0
      · rw [if_pos h, if_pos (decide_eq_true h)]
        simp only [List.map_cons, concatStrs]
        rw [foldl_priceRows l (init ++ priceRow x)]
        rw [String.append_assoc]
      · rw [if_neg h, if_neg (by simpa using h)]
        exact foldl_priceRows l init

/-- Claim C2, amended: whenever at least two table names occur in the input
(case-insensitive substring), the comparison handler returns one per-asset
block for each mentioned asset, but listed in the insertion order of the
fixed asset table (the order the detection loop scans), not in the order
the names first occur in the input text; the mentioned list is a sublist of
the table's key sequence.  (The input-text order reading is refuted by
`claim_C2_counterexample`.) -/
theorem claim_C2_amended :
    ∀ (store : List (String × CryptoData)) (user_input : String),
      2 ≤ (mentionedCryptos store user_input).length →
      handle_comparison_query store user_input =
        "🔍 Comparing " ++ joinSep " vs " (mentionedCryptos store user_input) ++ ":\n\n" ++
          concatStrs ((mentionedCryptos store user_input).map (compareBlock store)) ++
          ethics_disclaimer ∧
      (mentionedCryptos store user_input).Sublist (store.map Prod.fst) := by
  intro store input h2
  constructor
  · unfold handle_comparison_query
    rw [if_pos h2]
    rw [foldl_append_concat (compareBlock store) (mentionedCryptos store input)]
  · exact List.filter_sublist _

unseal Rat.add in
set_option maxRecDepth 100000 in
/-- Witness for the amended C2: the input "compare bitcoin and ethereum"
mentions two assets; the handler lists the blocks in table order. -/
theorem claim_C2_witness :
    (2 ≤ (mentionedCryptos initialCryptoData "compare bitcoin and ethereum").length) ∧
      (handle_comparison_query initialCryptoData "compare bitcoin and ethereum" =
        "🔍 Comparing " ++
          joinSep " vs " (mentionedCryptos initialCryptoData "compare bitcoin and ethereum") ++
          ":\n\n" ++
          concatStrs ((mentionedCryptos initialCryptoData "compare bitcoin and ethereum").map
            (compareBlock initialCryptoData)) ++
          ethics_disclaimer ∧
        (mentionedCryptos initialCryptoData "compare bitcoin and ethereum").Sublist
          (initialCryptoData.map Prod.fst)) :=
  ⟨by decide, claim_C2_amended initialCryptoData "compare bitcoin and ethereum" (by decide)⟩

set_option maxRecDepth 100000 in
/-- Counterexample for claim C2 as stated: in the input
"compare ethereum versus bitcoin" the name Ethereum is detected in the text
before Bitcoin, yet the handler's response lists Bitcoin's block first
(table order), so the blocks are not listed in the order the names are
first detected in the input text. -/
theorem claim_C2_counterexample :
    subBefore "compare ethereum versus bitcoin" "ethereum" "bitcoin" = true ∧
      subBefore (handle_comparison_query initialCryptoData "compare ethereum versus bitcoin")
        "**Bitcoin:**" "**Ethereum:**" = true ∧
      subBefore (handle_comparison_query initialCryptoData "compare ethereum versus bitcoin")
        "**Ethereum:**" "**Bitcoin:**" = false := by
  decide

theorem firstMentioned_eq_head (input : String) :
    ∀ (store : List (String × CryptoData)),
      firstMentioned store input = (mentionedCryptos store input).head?
  | [] => rfl
  | (a, d) :: t => by
      have ih := firstMentioned_eq_head input t
      unfold firstMentioned mentionedCryptos at ih ⊢
      rw [List.map_cons, List.filter_cons, List.find?_cons]
      by_cases h : strContains (lowerChars a) (lowerChars input)
      · simp [h]
      · simp [h, ih]

/-- Claim C3, amended: when the selected intent is `price` and at least one
known asset is named, the response is the detail block of only the first
named asset in the fixed table order (not one block per named asset, which
`claim_C3_counterexample` refutes), followed by the disclaimer; when no
known asset is named, the response is the table of all assets with a known
(positive) live price, one row each, followed by the disclaimer. -/
theorem claim_C3_amended :
    ∀ (store : List (String × CryptoData)) (key_terms : List String) (raw_input : String),
      match_pattern (String.mk (pyStrip raw_input.data)) "exit" = false →
      top_intent (analyze_intent key_terms (String.mk (pyStrip raw_input.data))) = some "price" →
      (∀ name, firstMentioned store (String.mk (pyStrip raw_input.data)) = some name →
          get_response store key_terms raw_input =
            (get_crypto_with_prices store name).getD "" ++ ethics_disclaimer ∧
          (mentionedCryptos store (String.mk (pyStrip raw_input.data))).head? = some name) ∧
      (firstMentioned store (String.mk (pyStrip raw_input.data)) = none →
          get_response store key_terms raw_input =
            "📊 Current Crypto Prices:\n" ++
              concatStrs ((store.filter (fun p => p.2.current_price > 0)).map priceRow) ++
              ethics_disclaimer) := by
  intro store kt input hexit htop
  constructor
  · intro name hfm
    constructor
    · unfold get_response
      simp only [hexit, htop, hfm, Bool.false_eq_true, if_false]
      simp
    · rw [← firstMentioned_eq_head (String.mk (pyStrip input.data)) store]
      exact hfm
  · intro hfm
    unfold get_response
    simp only [hexit, htop, hfm, Bool.false_eq_true, if_false]
    simp only [show allPricesTable store =
      "📊 Current Crypto Prices:\n" ++
        concatStrs ((store.filter (fun p => p.2.current_price > 0)).map priceRow)
      from foldl_priceRows store "📊 Current Crypto Prices:\n"]
    simp

unseal Rat.add in
set_option maxRecDepth 400000 in
/-- Witness for the amended C3: the input "price of bitcoin and ethereum"
(whose fallback normalizer terms select the `price` intent) names two
assets but the response is Bitcoin's detail block only. -/
theorem claim_C3_witness :
    (match_pattern (String.mk (pyStrip "price of bitcoin and ethereum".data)) "exit" = false) ∧
      (top_intent (analyze_intent (extract_key_terms_fallback "price of bitcoin and ethereum")
          (String.mk (pyStrip "price of bitcoin and ethereum".data))) = some "price") ∧
      (firstMentioned initialCryptoData
          (String.mk (pyStrip "price of bitcoin and ethereum".data)) = some "Bitcoin") ∧
      (get_response initialCryptoData
          (extract_key_terms_fallback "price of bitcoin and ethereum")
          "price of bitcoin and ethereum" =
        (get_crypto_with_prices initialCryptoData "Bitcoin").getD "" ++ ethics_disclaimer ∧
        (mentionedCryptos initialCryptoData
            (String.mk (pyStrip "price of bitcoin and ethereum".data))).head? =
          some "Bitcoin") :=
  ⟨by decide, by decide, by decide,
    (claim_C3_amended initialCryptoData
      (extract_key_terms_fallback "price of bitcoin and ethereum")
      "price of bitcoin and ethereum" (by decide) (by decide)).1 "Bitcoin" (by decide)⟩

unseal Rat.add in
set_option maxRecDepth 400000 in
/-- Counterexample for claim C3 as stated: with the `price` intent selected
and both Bitcoin and Ethereum named in the input, the response contains no
detail block for Ethereum at all (only the first named asset's block is
returned). -/
theorem claim_C3_counterexample :
    (top_intent (analyze_intent (extract_key_terms_fallback "price of bitcoin and ethereum")
        "price of bitcoin and ethereum") = some "price") ∧
      (strContains (lowerChars "Ethereum") (lowerChars "price of bitcoin and ethereum") = true) ∧
      (strContains (lowerChars "Ethereum")
        (lowerChars (get_response initialCryptoData
          (extract_key_terms_fallback "price of bitcoin and ethereum")
          "price of bitcoin and ethereum")) = false) := by
  refine ⟨by decide, by decide, by decide⟩

/-! ## Disclaimer suffix lemmas -/

theorem listPrefixOf_self_append : ∀ (s t : List Char), listPrefixOf s (s ++ t) = true
  | [], _ => rfl
  | c :: cs, t => by simp [listPrefixOf, listPrefixOf_self_append cs t]

theorem endsWithStr_append (a b : String) : endsWithStr (a ++ b) b = true := by
  unfold endsWithStr
  rw [String.data_append a b, List.reverse_append]
  exact listPrefixOf_self_append b.data.reverse a.data.reverse

theorem handle_sustainability_ends (store : List (String × CryptoData)) :
    handle_sustainability_query store = sustainabilityFallback ∨
      endsWithStr (handle_sustainability_query store) ethics_disclaimer = true := by
  unfold handle_sustainability_query
  cases get_sustainable_cryptos store with
  | nil => exact Or.inl rfl
  | cons b rest => exact Or.inr (endsWithStr_append _ _)

theorem handle_profitability_ends (store : List (String × CryptoData)) :
    handle_profitability_query store = profitabilityFallback ∨
      endsWithStr (handle_profitability_query store) ethics_disclaimer = true := by
  unfold handle_profitability_query
  cases get_rising_cryptos store with
  | nil => exact Or.inl rfl
  | cons b rest => exact Or.inr (endsWithStr_append _ _)

theorem handle_comparison_ends (store : List (String × CryptoData)) (user_input : String) :
    handle_comparison_query store user_input = comparisonFallback ∨
      endsWithStr (handle_comparison_query store user_input) ethics_disclaimer = true := by
  unfold handle_comparison_query
  by_cases h : (mentionedCryptos store user_input).length ≥ 2
  · rw [if_pos h]
    exact Or.inr (endsWithStr_append _ _)
  · rw [if_neg h]
    exact Or.inl rfl

theorem fallthrough_ends (store : List (String × CryptoData)) (user_input : String) :
    endsWithStr (fallthroughResponse store user_input) ethics_disclaimer = true := by
  unfold fallthroughResponse
  cases firstMentioned store user_input with
  | none => exact endsWithStr_append _ _
  | some name => exact endsWithStr_append _ _

/-- Claim C4, amended: every response of `get_response` is the exit
sentinel, one of the fixed greeting/thanks/help texts, one of the three
fallback messages (which do NOT carry the disclaimer, refuting the claim as
stated - see `claim_C4_counterexample`), or ends with the risk-disclaimer
suffix. -/
theorem claim_C4_amended :
    ∀ (store : List (String × CryptoData)) (key_terms : List String) (raw_input : String),
      get_response store key_terms raw_input = "EXIT" ∨
      get_response store key_terms raw_input = greetingResponse ∨
      get_response store key_terms raw_input = thanksResponse ∨
      get_response store key_terms raw_input = helpResponse ∨
      get_response store key_terms raw_input = sustainabilityFallback ∨
      get_response store key_terms raw_input = profitabilityFallback ∨
      get_response store key_terms raw_input = comparisonFallback ∨
      endsWithStr (get_response store key_terms raw_input) ethics_disclaimer = true := by
  intro store kt input
  unfold get_response
  by_cases hexit : match_pattern (String.mk (pyStrip input.data)) "exit" = true
  · rw [if_pos hexit]
    exact Or.inl rfl
  · rw [if_neg hexit]
    cases top_intent (analyze_intent kt (String.mk (pyStrip input.data))) with
    | none =>
        refine Or.inr (Or.inr (Or.inr (Or.inr (Or.inr (Or.inr (Or.inr ?_))))))
        exact fallthrough_ends store _
    | some ti =>
        dsimp only
        by_cases h1 : ti = "greeting"
        · rw [if_pos h1]
          exact Or.inr (Or.inl rfl)
        rw [if_neg h1]
        by_cases h2 : ti = "thanks"
        · rw [if_pos h2]
          exact Or.inr (Or.inr (Or.inl rfl))
        rw [if_neg h2]
        by_cases h3 : ti = "help"
        · rw [if_pos h3]
          exact Or.inr (Or.inr (Or.inr (Or.inl rfl)))
        rw [if_neg h3]
        by_cases h4 : ti = "compare"
        · rw [if_pos h4]
          rcases handle_comparison_ends store (String.mk (pyStrip input.data)) with h | h
          · exact Or.inr (Or.inr (Or.inr (Or.inr (Or.inr (Or.inr (Or.inl h))))))
          · exact Or.inr (Or.inr (Or.inr (Or.inr (Or.inr (Or.inr (Or.inr h))))))
        rw [if_neg h4]
        by_cases h5 : ti = "sustainable"
        · rw [if_pos h5]
          rcases handle_sustainability_ends store with h | h
          · exact Or.inr (Or.inr (Or.inr (Or.inr (Or.inl h))))
          · exact Or.inr (Or.inr (Or.inr (Or.inr (Or.inr (Or.inr (Or.inr h))))))
        rw [if_neg h5]
        by_cases h6 : ti = "profitable"
        · rw [if_pos h6]
          rcases handle_profitability_ends store with h | h
          · exact Or.inr (Or.inr (Or.inr (Or.inr (Or.inr (Or.inl h)))))
          · exact Or.inr (Or.inr (Or.inr (Or.inr (Or.inr (Or.inr (Or.inr h))))))
        rw [if_neg h6]
        by_cases h7 : ti = "price"
        · rw [if_pos h7]
          refine Or.inr (Or.inr (Or.inr (Or.inr (Or.inr (Or.inr (Or.inr ?_))))))
          cases firstMentioned store (String.mk (pyStrip input.data)) with
          | none => exact endsWithStr_append _ _
          | some name => exact endsWithStr_append _ _
        rw [if_neg h7]
        refine Or.inr (Or.inr (Or.inr (Or.inr (Or.inr (Or.inr (Or.inr ?_))))))
        exact fallthrough_ends store _

unseal Rat.add in
set_option maxRecDepth 400000 in
/-- Counterexample for claim C4 as stated: the input "compare please"
selects the `compare` handler, whose instruction fallback message is the
response and does not end with the risk-disclaimer suffix. -/
theorem claim_C4_counterexample :
    (get_response initialCryptoData (extract_key_terms_fallback "compare please")
        "compare please" = comparisonFallback) ∧
      endsWithStr comparisonFallback ethics_disclaimer = false := by
  refine ⟨by decide, by decide⟩

/-! ## Exit-keyword lemmas: stripping preserves whole-word matches -/

theorem ws_cases (c : Char) (h : c.isWhitespace = true) :
    c = ' ' ∨ c = '\t' ∨ c = '\r' ∨ c = '\n' := by
  simp only [Char.isWhitespace, Bool.or_eq_true, beq_iff_eq, decide_eq_true_eq] at h
  rcases h with ((h | h) | h) | h
  · exact Or.inl h
  · exact Or.inr (Or.inl h)
  · exact Or.inr (Or.inr (Or.inl h))
  · exact Or.inr (Or.inr (Or.inr h))

theorem ws_toLower (c : Char) (h : c.isWhitespace = true) : c.toLower = c := by
  rcases ws_cases c h with rfl | rfl | rfl | rfl <;> decide

theorem ws_not_word (c : Char) (h : c.isWhitespace = true) : isWordChar c = false := by
  rcases ws_cases c h with rfl | rfl | rfl | rfl <;> decide

theorem altOk_shape : ∀ (alt : RAlt), altOkB alt = true →
    ∃ w, alt = [Seg.lit w] ∧ w.isEmpty = false ∧ ∀ c ∈ w, c.toLower.isWhitespace = false
  | [Seg.lit w], h => by
      refine ⟨w, rfl, ?_, ?_⟩
      · simp only [altOkB, Bool.and_eq_true, Bool.not_eq_true'] at h
        exact h.1
      · simp only [altOkB, Bool.and_eq_true, Bool.not_eq_true', List.all_eq_true] at h
        exact h.2
  | [], h => by simp [altOkB] at h
  | [Seg.anyOpt], h => by simp [altOkB] at h
  | Seg.lit w :: s :: rest, h => by simp [altOkB] at h
  | Seg.anyOpt :: s :: rest, h => by simp [altOkB] at h

theorem no_ws_match (p d : Char) (hp : p.toLower.isWhitespace = false)
    (hd : d.isWhitespace = true) : (p.toLower == d.toLower) = false := by
  rw [ws_toLower d hd]
  rw [beq_eq_false_iff_ne]
  intro he
  rw [he] at hp
  exact absurd hd (by simp [hp])

theorem altAt_nil (alt : RAlt) (h : altOkB alt = true) : altAt alt [] = false := by
  obtain ⟨w, rfl, hne, _⟩ := altOk_shape alt h
  cases w with
  | nil => simp at hne
  | cons c cs => simp [altAt, segsRem, litMatch]

theorem patAt_nil (pat : RPat) (hp : patOkB pat = true) : patAt pat [] = false := by
  unfold patAt
  rw [List.any_eq_false]
  intro alt hmem
  rw [patOkB, List.all_eq_true] at hp
  simp [altAt_nil alt (hp alt hmem)]

theorem altAt_ws_head (alt : RAlt) (h : altOkB alt = true) (d : Char)
    (hd : d.isWhitespace = true) (rest : List Char) : altAt alt (d :: rest) = false := by
  obtain ⟨w, rfl, hne, hws⟩ := altOk_shape alt h
  cases w with
  | nil => simp at hne
  | cons c cs =>
      have hcd := no_ws_match c d (hws c (by simp)) hd
      simp [altAt, segsRem, litMatch, hcd]

theorem patAt_ws_head (pat : RPat) (hp : patOkB pat = true) (d : Char)
    (hd : d.isWhitespace = true) (rest : List Char) : patAt pat (d :: rest) = false := by
  unfold patAt
  rw [List.any_eq_false]
  intro alt hmem
  rw [patOkB, List.all_eq_true] at hp
  simp [altAt_ws_head alt (hp alt hmem) d hd rest]

theorem searchFrom_ws_cons (pat : RPat) (hp : patOkB pat = true) (c : Char)
    (hc : c.isWhitespace = true) (b : Bool) (cs : List Char) :
    searchFrom pat b (c :: cs) = searchFrom pat false cs := by
  show ((!b && patAt pat (c :: cs)) || searchFrom pat (isWordChar c) cs) = _
  rw [patAt_ws_head pat hp c hc cs, ws_not_word c hc]
  simp

theorem searchFrom_dropWhile (pat : RPat) (hp : patOkB pat = true) :
    ∀ (cs : List Char),
      searchFrom pat false (cs.dropWhile Char.isWhitespace) = searchFrom pat false cs
  | [] => rfl
  | c :: cs => by
      by_cases h : c.isWhitespace
      · rw [List.dropWhile_cons_of_pos h]
        rw [searchFrom_dropWhile pat hp cs]
        rw [searchFrom_ws_cons pat hp c h false cs]
      · rw [List.dropWhile_cons_of_neg (by simpa using h)]

theorem litMatch_append_ws :
    ∀ (w ys ws : List Char), (∀ c ∈ ws, c.isWhitespace = true) →
      (∀ p ∈ w, p.toLower.isWhitespace = false) →
      litMatch w (ys ++ ws) = (litMatch w ys).map (fun r => r ++ ws)
  | [], ys, ws, _, _ => by simp [litMatch]
  | p :: w', [], ws, hws, hw => by
      cases ws with
      | nil => simp [litMatch]
      | cons d ws' =>
          have hpd := no_ws_match p d (hw p (by simp)) (hws d (by simp))
          simp [litMatch, hpd]
  | p :: w', c :: ys', ws, hws, hw => by
      show litMatch (p :: w') (c :: (ys' ++ ws)) = _
      by_cases h : (p.toLower == c.toLower) = true
      · simp only [litMatch, h, if_true]
        exact litMatch_append_ws w' ys' ws hws (fun q hq => hw q (by simp [hq]))
      · simp only [litMatch, h, Bool.false_eq_true, if_false]
        rfl

theorem altAt_append_ws (alt : RAlt) (h : altOkB alt = true) (ys ws : List Char)
    (hws : ∀ c ∈ ws, c.isWhitespace = true) : altAt alt (ys ++ ws) = altAt alt ys := by
  obtain ⟨w, rfl, hne, hwsfree⟩ := altOk_shape alt h
  unfold altAt
  show ((segsRem [Seg.lit w] (ys ++ ws)).any tailBoundary) = _
  unfold segsRem
  rw [litMatch_append_ws w ys ws hws hwsfree]
  cases hm : litMatch w ys with
  | none => simp
  | some r =>
      simp only [Option.map_some']
      cases r with
      | nil =>
          cases ws with
          | nil => simp
          | cons d ws' =>
              simp [segsRem, tailBoundary, ws_not_word d (hws d (by simp))]
      | cons a r' => simp [segsRem, tailBoundary]

theorem patAt_append_ws :
    ∀ (pat : RPat), patOkB pat = true → ∀ (ys ws : List Char),
      (∀ c ∈ ws, c.isWhitespace = true) → patAt pat (ys ++ ws) = patAt pat ys
  | [], _, _, _, _ => rfl
  | a :: t, hp, ys, ws, hws => by
      rw [patOkB, List.all_cons, Bool.and_eq_true] at hp
      show (altAt a (ys ++ ws) || patAt t (ys ++ ws)) = (altAt a ys || patAt t ys)
      rw [altAt_append_ws a hp.1 ys ws hws, patAt_append_ws t hp.2 ys ws hws]

theorem searchFrom_all_ws (pat : RPat) (hp : patOkB pat = true) :
    ∀ (ws : List Char) (b : Bool), (∀ c ∈ ws, c.isWhitespace = true) →
      searchFrom pat b ws = false
  | [], b, _ => by
      show (!b && patAt pat []) = false
      rw [patAt_nil pat hp]
      simp
  | c :: ws', b, h => by
      rw [searchFrom_ws_cons pat hp c (h c (by simp)) b ws']
      exact searchFrom_all_ws pat hp ws' false (fun d hd => h d (by simp [hd]))

theorem searchFrom_append_ws (pat : RPat) (hp : patOkB pat = true) (ws : List Char)
    (hws : ∀ c ∈ ws, c.isWhitespace = true) :
    ∀ (ys : List Char) (b : Bool), searchFrom pat b (ys ++ ws) = searchFrom pat b ys
  | [], b => by
      rw [List.nil_append]
      rw [searchFrom_all_ws pat hp ws b hws]
      show _ = (!b && patAt pat [])
      rw [patAt_nil pat hp]
      simp
  | c :: ys', b => by
      rw [List.cons_append]
      show ((!b && patAt pat (c :: (ys' ++ ws))) || searchFrom pat (isWordChar c) (ys' ++ ws)) = _
      rw [show c :: (ys' ++ ws) = (c :: ys') ++ ws from rfl]
      rw [patAt_append_ws pat hp (c :: ys') ws hws]
      rw [searchFrom_append_ws pat hp ws hws ys' (isWordChar c)]
      rfl

theorem backStrip_split (l : List Char) :
    l = (l.reverse.dropWhile Char.isWhitespace).reverse ++
      (l.reverse.takeWhile Char.isWhitespace).reverse := by
  conv_lhs => rw [← List.reverse_reverse l]
  conv_lhs => rw [← List.takeWhile_append_dropWhile Char.isWhitespace l.reverse]
  rw [List.reverse_append]

theorem searchFrom_pyStrip (pat : RPat) (hp : patOkB pat = true) (cs : List Char) :
    searchFrom pat false (pyStrip cs) = searchFrom pat false cs := by
  unfold pyStrip
  have hwssuf : ∀ c ∈ ((cs.dropWhile Char.isWhitespace).reverse.takeWhile
      Char.isWhitespace).reverse, c.isWhitespace = true := by
    intro c hc
    rw [List.mem_reverse] at hc
    exact List.mem_takeWhile_imp hc
  calc searchFrom pat false
        ((cs.dropWhile Char.isWhitespace).reverse.dropWhile Char.isWhitespace).reverse
      = searchFrom pat false
          (((cs.dropWhile Char.isWhitespace).reverse.dropWhile Char.isWhitespace).reverse ++
            ((cs.dropWhile Char.isWhitespace).reverse.takeWhile Char.isWhitespace).reverse) :=
        (searchFrom_append_ws pat hp _ hwssuf _ false).symm
    _ = searchFrom pat false (cs.dropWhile Char.isWhitespace) := by
        rw [← backStrip_split (cs.dropWhile Char.isWhitespace)]
    _ = searchFrom pat false cs := searchFrom_dropWhile pat hp cs

theorem patAt_mono (p q : RPat) (hsub : ∀ alt ∈ p, alt ∈ q) (cs : List Char)
    (h : patAt p cs = true) : patAt q cs = true := by
  unfold patAt at h ⊢
  rw [List.any_eq_true] at h ⊢
  obtain ⟨alt, hmem, halt⟩ := h
  exact ⟨alt, hsub alt hmem, halt⟩

theorem searchFrom_mono (p q : RPat) (hsub : ∀ alt ∈ p, alt ∈ q) :
    ∀ (b : Bool) (cs : List Char), searchFrom p b cs = true → searchFrom q b cs = true
  | b, [], h => by
      simp only [searchFrom, Bool.and_eq_true] at h ⊢
      exact ⟨h.1, patAt_mono p q hsub [] h.2⟩
  | b, c :: cs, h => by
      simp only [searchFrom, Bool.or_eq_true, Bool.and_eq_true] at h ⊢
      rcases h with ⟨hb, hpat⟩ | hrec
      · exact Or.inl ⟨hb, patAt_mono p q hsub _ hpat⟩
      · exact Or.inr (searchFrom_mono p q hsub (isWordChar c) cs hrec)

/-- Claim C7: any input containing "exit", "quit" or "bye" as a whole word
(case-insensitive) makes `get_response` return the termination sentinel
"EXIT", regardless of the other words present - the exit check runs before
intent scoring. -/
theorem claim_C7 :
    ∀ (store : List (String × CryptoData)) (key_terms : List String) (raw_input : String),
      (reSearch (lits ["exit"]) raw_input || reSearch (lits ["quit"]) raw_input ||
        reSearch (lits ["bye"]) raw_input) = true →
      get_response store key_terms raw_input = "EXIT" := by
  intro store kt input h
  have hx : searchFrom exitPattern false input.data = true := by
    rw [Bool.or_eq_true, Bool.or_eq_true] at h
    rcases h with (h | h) | h
    · exact searchFrom_mono (lits ["exit"]) exitPattern (by decide) false input.data h
    · exact searchFrom_mono (lits ["quit"]) exitPattern (by decide) false input.data h
    · exact searchFrom_mono (lits ["bye"]) exitPattern (by decide) false input.data h
  have hstrip : searchFrom exitPattern false (pyStrip input.data) = true := by
    rw [searchFrom_pyStrip exitPattern (by decide) input.data]
    exact hx
  have hmp : match_pattern (String.mk (pyStrip input.data)) "exit" = true := by
    unfold match_pattern
    rw [show List.lookup "exit" patterns = some [exitPattern] from by decide]
    simp only [Option.getD_some, List.any_cons, List.any_nil, Bool.or_false]
    simpa [reSearch] using hstrip
  unfold get_response
  rw [if_pos hmp]

/-- Witness for C7: "ok bye now" contains the whole word "bye" and yields
the sentinel. -/
theorem claim_C7_witness :
    ((reSearch (lits ["exit"]) "ok bye now" || reSearch (lits ["quit"]) "ok bye now" ||
        reSearch (lits ["bye"]) "ok bye now") = true) ∧
      get_response initialCryptoData [] "ok bye now" = "EXIT" :=
  ⟨by decide, claim_C7 initialCryptoData [] "ok bye now" (by decide)⟩
